import Mathlib

/-!
# Verification of the `interval` timeline data layer

Shallow embedding of the core data model and operations of the
`interval` calendar application (TypeScript sources under `src/`):

* `src/utils/date.ts` — time-string comparison and validation, date math;
* `src/api/dataLayer.ts` — the persistence-backed CRUD operations;
* `src/store/timelineStore.ts` — the store-level operations (delete/undo
  stack, search, recurring-event resolution);
* `src/features/timeline/TimelineView.tsx` — the viewport visibility filter.

JavaScript strings are modelled as Lean `String` with lexical comparison
(`localeCompare` over ISO date/time strings compares code points).
Optional (`field?:`) values are modelled as `Option`; a JavaScript
truthiness test `!s` on an optional string holds for both `undefined`
and `""`, which `strFalsy` mirrors.  JavaScript objects used as string
keyed maps are modelled as insertion-ordered association lists.
-/

namespace Interval

/-- JS truthiness of an optional string: `!s` is `true` for `undefined`
and for the empty string. -/
def strFalsy : Option String → Bool
  | none => true
  | some s => s.isEmpty

/-- Lexical three-way comparison of char lists (code-point order). -/
def charListCompare : List Char → List Char → Int
  | [], [] => 0
  | [], _ :: _ => -1
  | _ :: _, [] => 1
  | a :: as, b :: bs => if a < b then -1 else if b < a then 1 else charListCompare as bs

/-- Model of `a.localeCompare(b)` on code-point ordered strings:
negative, zero or positive according to lexical order. -/
def localeCompare (a b : String) : Int :=
  charListCompare a.data b.data

/-- `compareTimeStrings` from `src/utils/date.ts`:
events without a (truthy) time go to the bottom, otherwise lexical
comparison of the `"HH:mm"` strings. -/
def compareTimeStrings (a b : Option String) : Int :=
  if strFalsy a && strFalsy b then 0
  else if strFalsy a then 1
  else if strFalsy b then -1
  else localeCompare (a.getD "") (b.getD "")

/-- Event colors (`EventColor` in `src/types`). -/
inductive EventColor where
  | red | orange | yellow | green | blue | purple | pink | gray
  deriving DecidableEq, Repr

/-- `Event` from `src/types`: `id`, `title`, optional `description`,
optional `time` (`"HH:mm"`), optional `endDate`/`endTime`, optional
`color`, optional tag ids, optional links, optional reminder lead time,
optional reminder-sent flag and the `createdAt` ISO timestamp. -/
structure Event where
  id : String
  title : String
  description : Option String := none
  time : Option String := none
  endDate : Option String := none
  endTime : Option String := none
  color : Option EventColor := none
  tags : Option (List String) := none
  links : Option (List String) := none
  reminder : Option Nat := none
  reminderSent : Option Bool := none
  createdAt : String
  deriving DecidableEq, Repr

/-- The event comparator used by `sortEvents` (identical in
`src/api/dataLayer.ts` and `src/store/timelineStore.ts`): compare the
time strings first and break ties by `createdAt`. -/
def compareEvents (a b : Event) : Int :=
  if compareTimeStrings a.time b.time = 0 then localeCompare a.createdAt b.createdAt
  else compareTimeStrings a.time b.time

/-- The "may come first" relation induced by the comparator; the stable
JS `Array.prototype.sort` produces the unique stable ordering of this
total preorder. -/
def eventLE (a b : Event) : Prop := compareEvents a b ≤ 0

instance : DecidableRel eventLE := fun a b => Int.decLe (compareEvents a b) 0

/-- `sortEvents` from `src/api/dataLayer.ts`: stable sort of a date
bucket by `compareEvents` (JS `sort` is stable; insertion sort realizes
the same stable ordering). -/
def sortEvents (l : List Event) : List Event := l.insertionSort eventLE

-- ### Characterization of the comparator

theorem charListCompare_lt : ∀ cs ds : List Char,
    charListCompare cs ds < 0 ↔ List.Lex (· < ·) cs ds
  | [], [] => by
    simp only [charListCompare]
    exact iff_of_false (by norm_num) nofun
  | [], _ :: _ => by
    simp only [charListCompare]
    exact iff_of_true (by norm_num) List.Lex.nil
  | _ :: _, [] => by
    simp only [charListCompare]
    exact iff_of_false (by norm_num) nofun
  | a :: as, b :: bs => by
    simp only [charListCompare]
    split_ifs with h1 h2
    · exact iff_of_true (by norm_num) (List.Lex.rel h1)
    · refine iff_of_false (by norm_num) (fun h => ?_)
      cases h with
      | cons h => exact lt_irrefl _ h2
      | rel h => exact absurd h2 (asymm h)
    · have hab : a = b := le_antisymm (le_of_not_lt h2) (le_of_not_lt h1)
      subst hab
      rw [charListCompare_lt as bs]
      constructor
      · exact fun h => List.Lex.cons h
      · intro h
        cases h with
        | cons h => exact h
        | rel h => exact absurd h h1

theorem charListCompare_eq_zero : ∀ cs ds : List Char,
    charListCompare cs ds = 0 ↔ cs = ds
  | [], [] => by simp [charListCompare]
  | [], _ :: _ => by simp [charListCompare]
  | _ :: _, [] => by simp [charListCompare]
  | a :: as, b :: bs => by
    simp only [charListCompare]
    split_ifs with h1 h2
    · exact iff_of_false (by norm_num) (by simp [ne_of_lt h1])
    · exact iff_of_false (by norm_num) (by simp [ne_of_gt h2])
    · have hab : a = b := le_antisymm (le_of_not_lt h2) (le_of_not_lt h1)
      rw [charListCompare_eq_zero as bs]
      simp [hab]

theorem charListCompare_antisymm : ∀ cs ds : List Char,
    charListCompare cs ds = -charListCompare ds cs
  | [], [] => by simp [charListCompare]
  | [], _ :: _ => by simp [charListCompare]
  | _ :: _, [] => by simp [charListCompare]
  | a :: as, b :: bs => by
    simp only [charListCompare]
    rcases lt_trichotomy a b with h | h | h
    · simp [h, asymm h]
    · simp [h, lt_irrefl, charListCompare_antisymm as bs]
    · simp [h, asymm h]

theorem localeCompare_neg {a b : String} : localeCompare a b < 0 ↔ a < b := by
  rw [localeCompare, charListCompare_lt, String.lt_iff_toList_lt]
  exact ⟨fun h => h, fun h => h⟩

theorem localeCompare_eq_zero {a b : String} : localeCompare a b = 0 ↔ a = b := by
  rw [localeCompare, charListCompare_eq_zero]
  exact ⟨fun h => String.toList_inj.mp h, fun h => by rw [h]⟩

theorem localeCompare_antisymm (a b : String) : localeCompare a b = -localeCompare b a :=
  charListCompare_antisymm a.data b.data

theorem localeCompare_nonpos {a b : String} : localeCompare a b ≤ 0 ↔ a ≤ b := by
  constructor
  · intro h
    rcases lt_or_eq_of_le h with h | h
    · exact le_of_lt (localeCompare_neg.mp h)
    · exact le_of_eq (localeCompare_eq_zero.mp h)
  · intro h
    rcases lt_or_eq_of_le h with h | h
    · exact le_of_lt (localeCompare_neg.mpr h)
    · exact le_of_eq (localeCompare_eq_zero.mpr h)

/-- The string a truthy time field holds (`Option.getD` reaches the
`getD ""` default only in falsy cases). -/
def timeVal (a : Option String) : String := a.getD ""

theorem cts_eq_zero {a b : Option String} :
    compareTimeStrings a b = 0 ↔
      (strFalsy a = true ∧ strFalsy b = true) ∨
      (strFalsy a = false ∧ strFalsy b = false ∧ timeVal a = timeVal b) := by
  unfold compareTimeStrings
  cases ha : strFalsy a <;> cases hb : strFalsy b <;>
    simp [ha, hb, timeVal, localeCompare_eq_zero]

theorem cts_neg {a b : Option String} :
    compareTimeStrings a b < 0 ↔
      strFalsy a = false ∧
        (strFalsy b = true ∨ (strFalsy b = false ∧ timeVal a < timeVal b)) := by
  unfold compareTimeStrings
  cases ha : strFalsy a <;> cases hb : strFalsy b <;>
    simp [ha, hb, timeVal, localeCompare_neg]

theorem cts_antisymm (a b : Option String) :
    compareTimeStrings a b = -compareTimeStrings b a := by
  unfold compareTimeStrings
  cases ha : strFalsy a <;> cases hb : strFalsy b <;>
    simp [ha, hb, localeCompare_antisymm (a.getD "") (b.getD "")]

theorem compareEvents_antisymm (a b : Event) :
    compareEvents a b = -compareEvents b a := by
  unfold compareEvents
  rw [cts_antisymm a.time b.time]
  by_cases h : compareTimeStrings b.time a.time = 0
  · simp [h, localeCompare_antisymm a.createdAt b.createdAt]
  · simp [h, neg_eq_zero]

theorem compareEvents_nonpos {a b : Event} :
    compareEvents a b ≤ 0 ↔
      compareTimeStrings a.time b.time < 0 ∨
        (compareTimeStrings a.time b.time = 0 ∧ a.createdAt ≤ b.createdAt) := by
  unfold compareEvents
  by_cases h : compareTimeStrings a.time b.time = 0
  · simp [h, localeCompare_nonpos]
  · rw [if_neg h]
    simp only [h, false_and, or_false]
    omega

instance : IsTotal Event eventLE := by
  constructor
  intro a b
  unfold eventLE
  have h := compareEvents_antisymm a b
  omega

instance : IsTrans Event eventLE := by
  constructor
  intro a b c hab hbc
  rw [eventLE, compareEvents_nonpos] at hab hbc ⊢
  rcases hab with hab | ⟨hab, hab'⟩ <;> rcases hbc with hbc | ⟨hbc, hbc'⟩
  · left
    rw [cts_neg] at hab hbc ⊢
    obtain ⟨ha, hb⟩ := hab
    obtain ⟨hb', hc⟩ := hbc
    refine ⟨ha, ?_⟩
    rcases hb with hb | ⟨hb, hlt⟩
    · rw [hb] at hb'; cases hb'
    · rcases hc with hc | ⟨hc, hlt'⟩
      · exact Or.inl hc
      · exact Or.inr ⟨hc, lt_trans hlt hlt'⟩
  · left
    rw [cts_neg] at hab ⊢
    rw [cts_eq_zero] at hbc
    obtain ⟨ha, hb⟩ := hab
    refine ⟨ha, ?_⟩
    rcases hbc with ⟨hb', hc⟩ | ⟨hb', hc, heq⟩
    · rcases hb with hb | ⟨hb, _⟩
      · exact Or.inl hc
      · rw [hb] at hb'; cases hb'
    · rcases hb with hb | ⟨hb, hlt⟩
      · rw [hb] at hb'; cases hb'
      · exact Or.inr ⟨hc, heq ▸ hlt⟩
  · left
    rw [cts_neg] at hbc ⊢
    rw [cts_eq_zero] at hab
    obtain ⟨hb, hc⟩ := hbc
    rcases hab with ⟨ha, hb'⟩ | ⟨ha, hb', heq⟩
    · rw [hb'] at hb; cases hb
    · exact ⟨ha, heq ▸ hc⟩
  · right
    refine ⟨?_, le_trans hab' hbc'⟩
    rw [cts_eq_zero] at hab hbc ⊢
    rcases hab with ⟨ha, hb⟩ | ⟨ha, hb, heq⟩ <;> rcases hbc with ⟨hb', hc⟩ | ⟨hb', hc, heq'⟩
    · exact Or.inl ⟨ha, hc⟩
    · rw [hb'] at hb; cases hb
    · rw [hb'] at hb; cases hb
    · exact Or.inr ⟨ha, hc, heq.trans heq'⟩

-- Sanity checks: the model is executable.
example : compareTimeStrings (some "09:00") (some "10:00") = -1 := by decide
example : compareTimeStrings none (some "10:00") = 1 := by decide
example : compareTimeStrings (some "") (some "10:00") = 1 := by decide

-- ### The ordering the spec describes for a sorted bucket

/-- The order the spec claims for consecutive events of a sorted bucket:
timed events precede untimed ones, timed events are in lexical time
order, and ties (equal times, or both untimed) are in ascending
`createdAt` order. -/
def eventOrderSpec (a b : Event) : Prop :=
  (strFalsy b.time = false → strFalsy a.time = false) ∧
  (strFalsy a.time = false → strFalsy b.time = false → timeVal a.time ≤ timeVal b.time) ∧
  ((strFalsy a.time = true ∧ strFalsy b.time = true) ∨
      (strFalsy a.time = false ∧ strFalsy b.time = false ∧ timeVal a.time = timeVal b.time) →
    a.createdAt ≤ b.createdAt)

theorem eventLE_imp_spec {a b : Event} (h : eventLE a b) : eventOrderSpec a b := by
  rw [eventLE, compareEvents_nonpos] at h
  refine ⟨?_, ?_, ?_⟩
  · intro hb
    rcases h with h | ⟨h, _⟩
    · exact (cts_neg.mp h).1
    · rcases cts_eq_zero.mp h with ⟨_, hb'⟩ | ⟨ha, _⟩
      · rw [hb'] at hb; cases hb
      · exact ha
  · intro ha hb
    rcases h with h | ⟨h, _⟩
    · rcases (cts_neg.mp h).2 with hb' | ⟨_, hlt⟩
      · rw [hb'] at hb; cases hb
      · exact le_of_lt hlt
    · rcases cts_eq_zero.mp h with ⟨ha', _⟩ | ⟨_, _, heq⟩
      · rw [ha'] at ha; cases ha
      · exact le_of_eq heq
  · intro htie
    rcases h with h | ⟨_, hle⟩
    · obtain ⟨ha, hb⟩ := cts_neg.mp h
      rcases htie with ⟨ha', _⟩ | ⟨_, hb', heq⟩
      · rw [ha'] at ha; cases ha
      · rcases hb with hb | ⟨_, hlt⟩
        · rw [hb'] at hb; cases hb
        · exact absurd heq (ne_of_lt hlt)
    · exact hle

/--
C1: for every list of events, the bucket sort is stable and orders the
bucket so that timed events precede untimed events, timed events are in
lexical order of their time strings, and ties (equal times, or both
untimed) are in ascending creation-timestamp order.  Stability is
stated as: every comparator-tied pair keeps its original relative
order.
-/
theorem sortEvents_stable_and_ordered (l : List Event) :
    List.Perm (sortEvents l) l ∧
    (sortEvents l).Pairwise eventOrderSpec ∧
    (∀ a b : Event, compareEvents a b = 0 →
      List.Sublist [a, b] l → List.Sublist [a, b] (sortEvents l)) := by
  refine ⟨List.perm_insertionSort eventLE l, ?_, ?_⟩
  · exact List.Pairwise.imp eventLE_imp_spec (List.sorted_insertionSort eventLE l)
  · intro a b h hsub
    exact List.pair_sublist_insertionSort (by rw [eventLE, h]) hsub

/-- Two comparator-tied untimed events used to witness stability. -/
def evTieA : Event := { id := "a", title := "A", createdAt := "2026-01-01T10:00:00.000Z" }

/-- Second tied event (same `createdAt`, no time). -/
def evTieB : Event := { id := "b", title := "B", createdAt := "2026-01-01T10:00:00.000Z" }

/-- Witness for C1 at a concrete tied pair. -/
theorem sortEvents_stable_and_ordered_witness :
    List.Sublist [evTieA, evTieB] (sortEvents [evTieA, evTieB]) :=
  (sortEvents_stable_and_ordered [evTieA, evTieB]).2.2 evTieA evTieB (by decide)
    (List.Sublist.refl _)

-- ### Date arithmetic (`date-fns` as used by the source, at day granularity)

/-- Decimal value of a digit string (used to read `YYYY`, `MM`, `DD`
fields out of a date key). -/
def digitsToNat (cs : List Char) : Nat :=
  cs.foldl (fun n c => n * 10 + (c.toNat - 48)) 0

/-- Days since 1970-01-01 of a proleptic Gregorian civil date
(the standard civil-from-days correspondence used by calendar
libraries; `parseISO` of a plain `YYYY-MM-DD` yields local midnight of
this civil day). -/
def daysFromCivil (y m d : Int) : Int :=
  let y2 := if m ≤ 2 then y - 1 else y
  let era := Int.fdiv y2 400
  let yoe := y2 - era * 400
  let mp := Int.emod (m + 9) 12
  let doy := Int.fdiv (153 * mp + 2) 5 + d - 1
  let doe := yoe * 365 + Int.fdiv yoe 4 - Int.fdiv yoe 100 + doy
  era * 146097 + doe - 719468

/-- Read the year/month/day fields of a `YYYY-MM-DD` date key. -/
def parseISODate (s : String) : Int × Int × Int :=
  ((digitsToNat (s.data.take 4) : Int),
    (digitsToNat ((s.data.drop 5).take 2) : Int),
    (digitsToNat ((s.data.drop 8).take 2) : Int))

/-- `parseISO` of a date key, reduced to day granularity: the epoch day
number of the date.  All comparisons the source makes on parsed date
keys (`isBefore`, `isAfter`, `isToday` after `startOfDay`) are
comparisons of this number. -/
def toDays (s : String) : Int :=
  let p := parseISODate s
  daysFromCivil p.1 p.2.1 p.2.2

/-- `getDay(parseISO(date))`: day of week, `0 = Sunday .. 6 = Saturday`
(1970-01-01 was a Thursday). -/
def getDayOfDate (s : String) : Nat :=
  ((toDays s + 4).emod 7).toNat

example : toDays "1970-01-01" = 0 := by decide
example : getDayOfDate "1970-01-01" = 4 := by decide
example : getDayOfDate "1970-01-04" = 0 := by decide
example : toDays "2026-03-01" - toDays "2026-02-28" = 1 := by decide

-- ### String helpers (JS semantics)

/-- `s.toLowerCase()` (ASCII, which is all the source compares). -/
def strToLower (s : String) : String := ⟨s.data.map Char.toLower⟩

/-- `s.includes(pat)`: substring containment. -/
def strIncludes (s pat : String) : Bool := decide (pat.data <:+: s.data)

/-- The `^\d{4}-\d{2}-\d{2}$` test `searchEvents` applies to a query. -/
def isDateQueryPattern (s : String) : Bool :=
  match s.data with
  | [y1, y2, y3, y4, '-', m1, m2, '-', d1, d2] =>
      y1.isDigit && y2.isDigit && y3.isDigit && y4.isDigit &&
        m1.isDigit && m2.isDigit && d1.isDigit && d2.isDigit
  | _ => false

example : isDateQueryPattern "2026-03-10" = true := by decide
example : isDateQueryPattern "2026-3-10" = false := by decide

-- ### Remaining entity types of `src/types`

/-- `RecurringEvent` from `src/types`: weekday-recurring template with
optional `repeatUntil` end date. -/
structure RecurringEvent where
  id : String
  title : String
  description : Option String := none
  time : Option String := none
  endTime : Option String := none
  color : Option EventColor := none
  tags : Option (List String) := none
  enabledDays : List Nat
  repeatUntil : Option String := none
  reminder : Option Nat := none
  createdAt : String
  deriving DecidableEq, Repr

/-- `EventTag` from `src/types`. -/
structure EventTag where
  id : String
  name : String
  color : EventColor
  deriving DecidableEq, Repr

-- ### JS objects used as string-keyed maps

/-- `eventsByDate`: a JS object keyed by date strings, modelled as an
insertion-ordered association list (JS preserves string-key insertion
order, which `Object.entries` iteration exposes). -/
abbrev EventsByDate := List (String × List Event)

/-- Property read `m[k]`. -/
def objGet (m : EventsByDate) (k : String) : Option (List Event) :=
  (m.find? (fun p => p.1 == k)).map (fun p => p.2)

/-- Property write `m[k] = v` (updates in place, or appends a new key). -/
def objSet (m : EventsByDate) (k : String) (v : List Event) : EventsByDate :=
  if m.any (fun p => p.1 == k) then
    m.map (fun p => if p.1 == k then (k, v) else p)
  else m ++ [(k, v)]

/-- Property delete `delete m[k]`. -/
def objDel (m : EventsByDate) (k : String) : EventsByDate :=
  m.filter (fun p => p.1 != k)

theorem objGet_objSet_self (m : EventsByDate) (k : String) (v : List Event) :
    objGet (objSet m k v) k = some v := by
  unfold objGet objSet
  by_cases hm : m.any (fun p => p.1 == k)
  · rw [if_pos hm, List.find?_map]
    have hpred : ((fun p : String × List Event => p.1 == k) ∘
        (fun p => if p.1 == k then (k, v) else p)) = fun p => p.1 == k := by
      funext q
      by_cases h : q.1 = k <;> simp [h]
    rw [hpred]
    obtain ⟨x, hx, hxk⟩ := List.any_eq_true.mp hm
    have hiss : (List.find? (fun p : String × List Event => p.1 == k) m).isSome := by
      rw [List.find?_isSome]
      exact ⟨x, hx, hxk⟩
    obtain ⟨q, hfind⟩ := Option.isSome_iff_exists.mp hiss
    have hq : q.1 = k := by simpa using List.find?_some hfind
    simp [hfind, hq]
  · rw [if_neg hm, List.find?_append]
    have hnone : List.find? (fun p => p.1 == k) m = none := by
      rw [List.find?_eq_none]
      intro x hx hxk
      exact hm (List.any_eq_true.mpr ⟨x, hx, hxk⟩)
    simp [hnone, List.find?]

theorem objGet_objSet_other (m : EventsByDate) {k k' : String} (v : List Event)
    (h : k' ≠ k) : objGet (objSet m k v) k' = objGet m k' := by
  unfold objGet objSet
  by_cases hm : m.any (fun p => p.1 == k)
  · rw [if_pos hm, List.find?_map]
    have hpred : ((fun p : String × List Event => p.1 == k') ∘
        (fun p => if p.1 == k then (k, v) else p)) = fun p => p.1 == k' := by
      funext q
      by_cases hq : q.1 = k <;> simp [hq, beq_false_of_ne (Ne.symm h), beq_false_of_ne h]
    rw [hpred]
    cases hfind : List.find? (fun p => p.1 == k') m with
    | none => simp
    | some q =>
      have hq : q.1 = k' := by simpa using List.find?_some hfind
      have hqk : ¬q.1 = k := fun hk => h (hq.symm.trans hk)
      simp [Option.map, hqk]
  · rw [if_neg hm, List.find?_append]
    cases hfind : List.find? (fun p => p.1 == k') m with
    | none => simp [List.find?, beq_false_of_ne (Ne.symm h)]
    | some q => simp

theorem objGet_objDel_self (m : EventsByDate) (k : String) :
    objGet (objDel m k) k = none := by
  unfold objGet objDel
  rw [List.find?_filter]
  have hnone : List.find? (fun a : String × List Event =>
      decide ((a.1 != k) = true ∧ (a.1 == k) = true)) m = none := by
    rw [List.find?_eq_none]
    intro x _
    by_cases hx : x.1 = k <;> simp [hx]
  rw [hnone]
  rfl

theorem objGet_objDel_other (m : EventsByDate) {k k' : String} (h : k' ≠ k) :
    objGet (objDel m k) k' = objGet m k' := by
  unfold objGet objDel
  rw [List.find?_filter]
  have hpred : (fun a : String × List Event =>
      decide ((a.1 != k) = true ∧ (a.1 == k') = true)) = fun p => p.1 == k' := by
    funext q
    by_cases hq : q.1 = k'
    · have hqk : ¬q.1 = k := fun hk => h (hq.symm.trans hk)
      simp [hq, hqk, h]
    · simp [hq]
  rw [hpred]

-- ### Data layer (`src/api/dataLayer.ts`)

/-- The persisted timeline document
(`{ eventsByDate, recurringEvents, tags }`). -/
structure TimelineState where
  eventsByDate : EventsByDate := []
  recurringEvents : List RecurringEvent := []
  tags : List EventTag := []
  deriving DecidableEq, Repr

/-- `Omit<Event, 'id' | 'createdAt'>`: the caller-supplied fields of a
new event. -/
structure EventData where
  title : String
  description : Option String := none
  time : Option String := none
  endDate : Option String := none
  endTime : Option String := none
  color : Option EventColor := none
  tags : Option (List String) := none
  links : Option (List String) := none
  reminder : Option Nat := none
  reminderSent : Option Bool := none
  deriving DecidableEq, Repr

/-- The event `addEvent` builds: `{ id: generateId(), ...data,
createdAt: new Date().toISOString() }`.  The generated id and timestamp
are parameters of the model (the source draws them from the clock and a
random source). -/
def mkEvent (id : String) (data : EventData) (createdAt : String) : Event :=
  { id := id
    title := data.title
    description := data.description
    time := data.time
    endDate := data.endDate
    endTime := data.endTime
    color := data.color
    tags := data.tags
    links := data.links
    reminder := data.reminder
    reminderSent := data.reminderSent
    createdAt := createdAt }

/-- `Partial<Omit<Event, 'id' | 'createdAt'>>`: each field is either
absent from the patch object (outer `none`) or present with a value. -/
structure EventPatch where
  title : Option String := none
  description : Option (Option String) := none
  time : Option (Option String) := none
  endDate : Option (Option String) := none
  endTime : Option (Option String) := none
  color : Option (Option EventColor) := none
  tags : Option (Option (List String)) := none
  links : Option (Option (List String)) := none
  reminder : Option (Option Nat) := none
  reminderSent : Option (Option Bool) := none
  deriving DecidableEq, Repr

/-- Spread merge `{ ...event, ...updates }`: fields present in the
patch overwrite the event's fields. -/
def applyPatch (e : Event) (p : EventPatch) : Event :=
  { e with
    title := p.title.getD e.title
    description := p.description.getD e.description
    time := p.time.getD e.time
    endDate := p.endDate.getD e.endDate
    endTime := p.endTime.getD e.endTime
    color := p.color.getD e.color
    tags := p.tags.getD e.tags
    links := p.links.getD e.links
    reminder := p.reminder.getD e.reminder
    reminderSent := p.reminderSent.getD e.reminderSent }

/-- `addEvent` from `src/api/dataLayer.ts`: build the event, append it
to the date bucket, sort, persist, return it.  The final `Bool` of each
operation records whether `setStoredTimeline` was called. -/
def dlAddEvent (date : String) (data : EventData) (id createdAt : String)
    (st : TimelineState) : Event × TimelineState × Bool :=
  let event := mkEvent id data createdAt
  let events := (objGet st.eventsByDate date).getD [] ++ [event]
  (event, { st with eventsByDate := objSet st.eventsByDate date (sortEvents events) }, true)

/-- `updateEvent` from `src/api/dataLayer.ts`: `null` when the date
bucket or the id is unknown (no write), otherwise merge, re-sort,
persist, return the merged event. -/
def dlUpdateEvent (date eventId : String) (p : EventPatch) (st : TimelineState) :
    Option Event × TimelineState × Bool :=
  match objGet st.eventsByDate date with
  | none => (none, st, false)
  | some events =>
    match events.findIdx? (fun e => e.id == eventId) with
    | none => (none, st, false)
    | some index =>
      match events[index]? with
      | none => (none, st, false)
      | some e =>
        let updated := applyPatch e p
        let next := events.set index updated
        (some updated,
          { st with eventsByDate := objSet st.eventsByDate date (sortEvents next) },
          true)

/-- `deleteEvent` from `src/api/dataLayer.ts`: `null` when the bucket
or the id is unknown (no write); otherwise remove the event, dropping
the bucket when it becomes empty, persist, and return the removed
event with its date. -/
def dlDeleteEvent (date eventId : String) (st : TimelineState) :
    Option (Event × String) × TimelineState × Bool :=
  match objGet st.eventsByDate date with
  | none => (none, st, false)
  | some events =>
    match events.find? (fun e => e.id == eventId) with
    | none => (none, st, false)
    | some event =>
      let filtered := events.filter (fun e => e.id != eventId)
      let ebd :=
        if filtered.isEmpty then objDel st.eventsByDate date
        else objSet st.eventsByDate date filtered
      (some (event, date), { st with eventsByDate := ebd }, true)

/-- `moveEvent` from `src/api/dataLayer.ts`: remove from the source
bucket (dropping it when empty), insert and sort into the destination
bucket, persist once. -/
def dlMoveEvent (fromDate toDate eventId : String) (st : TimelineState) :
    Option Event × TimelineState × Bool :=
  match objGet st.eventsByDate fromDate with
  | none => (none, st, false)
  | some fromEvents =>
    match fromEvents.find? (fun e => e.id == eventId) with
    | none => (none, st, false)
    | some event =>
      let fromFiltered := fromEvents.filter (fun e => e.id != eventId)
      let ebd1 :=
        if fromFiltered.isEmpty then objDel st.eventsByDate fromDate
        else objSet st.eventsByDate fromDate fromFiltered
      let toEvents := (objGet ebd1 toDate).getD []
      let ebd2 := objSet ebd1 toDate (sortEvents (toEvents ++ [event]))
      (some event, { st with eventsByDate := ebd2 }, true)

/-- `restoreEvent` from `src/api/dataLayer.ts`: re-insert an event with
its original id, sort, persist. -/
def dlRestoreEvent (date : String) (event : Event) (st : TimelineState) :
    Event × TimelineState × Bool :=
  let events := (objGet st.eventsByDate date).getD [] ++ [event]
  (event, { st with eventsByDate := objSet st.eventsByDate date (sortEvents events) }, true)

-- ### C6: not-found is a soft no-op

/--
C6: for every persisted state, date and event id, if the date bucket
does not exist or contains no event with that id, then `updateEvent`
and `deleteEvent` return `null`, leave the state unchanged, and perform
no write (the operations are total functions: nothing is thrown).
-/
theorem updateEvent_deleteEvent_not_found (st : TimelineState) (date eventId : String)
    (p : EventPatch)
    (h : objGet st.eventsByDate date = none ∨
      ∀ e ∈ (objGet st.eventsByDate date).getD [], e.id ≠ eventId) :
    dlUpdateEvent date eventId p st = (none, st, false) ∧
    dlDeleteEvent date eventId st = (none, st, false) := by
  cases hg : objGet st.eventsByDate date with
  | none => constructor <;> simp [dlUpdateEvent, dlDeleteEvent, hg]
  | some events =>
    have hall : ∀ e ∈ events, e.id ≠ eventId := by
      rcases h with h | h
      · rw [hg] at h; cases h
      · rw [hg] at h; simpa using h
    have hidx : events.findIdx? (fun e => e.id == eventId) = none :=
      List.findIdx?_eq_none_iff.mpr (fun e he => by simpa using hall e he)
    have hfind : events.find? (fun e => e.id == eventId) = none :=
      List.find?_eq_none.mpr (fun e he => by simpa using hall e he)
    constructor <;> simp [dlUpdateEvent, dlDeleteEvent, hg, hidx, hfind]

/-- Witness for C6 on the empty state. -/
theorem updateEvent_deleteEvent_not_found_witness :
    dlUpdateEvent "2026-01-01" "x" {} {} = (none, {}, false) ∧
    dlDeleteEvent "2026-01-01" "x" {} = (none, {}, false) :=
  updateEvent_deleteEvent_not_found {} "2026-01-01" "x" {} (Or.inl rfl)

-- ### C2: non-empty buckets are an invariant of the data layer

/-- Every existing date key holds a non-empty bucket. -/
def BucketsNonempty (s : TimelineState) : Prop :=
  ∀ d l, objGet s.eventsByDate d = some l → l ≠ []

/-- States reachable from the empty persisted document through the
data-layer mutations. -/
inductive Reach : TimelineState → Prop where
  | init : Reach {}
  | add (date : String) (data : EventData) (id createdAt : String) {s : TimelineState} :
      Reach s → Reach (dlAddEvent date data id createdAt s).2.1
  | update (date eventId : String) (p : EventPatch) {s : TimelineState} :
      Reach s → Reach (dlUpdateEvent date eventId p s).2.1
  | del (date eventId : String) {s : TimelineState} :
      Reach s → Reach (dlDeleteEvent date eventId s).2.1
  | move (fromDate toDate eventId : String) {s : TimelineState} :
      Reach s → Reach (dlMoveEvent fromDate toDate eventId s).2.1
  | restore (date : String) (event : Event) {s : TimelineState} :
      Reach s → Reach (dlRestoreEvent date event s).2.1

theorem sortEvents_ne_nil {l : List Event} (h : l ≠ []) : sortEvents l ≠ [] := by
  intro hz
  apply h
  have hp := List.perm_insertionSort eventLE l
  rw [show List.insertionSort eventLE l = sortEvents l from rfl, hz] at hp
  exact (List.nil_perm.mp hp)

theorem bucketsNonempty_add (date : String) (data : EventData) (id createdAt : String)
    {s : TimelineState} (hinv : BucketsNonempty s) :
    BucketsNonempty (dlAddEvent date data id createdAt s).2.1 := by
  intro d l hget
  dsimp [dlAddEvent] at hget
  by_cases hd : d = date
  · subst hd
    rw [objGet_objSet_self] at hget
    cases hget
    exact sortEvents_ne_nil (by simp)
  · rw [objGet_objSet_other _ _ hd] at hget
    exact hinv d l hget

theorem bucketsNonempty_update (date eventId : String) (p : EventPatch)
    {s : TimelineState} (hinv : BucketsNonempty s) :
    BucketsNonempty (dlUpdateEvent date eventId p s).2.1 := by
  unfold dlUpdateEvent
  split
  · exact hinv
  split
  · exact hinv
  split
  · exact hinv
  rename_i events hg index hidx e he
  intro d l hget
  dsimp at hget
  by_cases hd : d = date
  · subst hd
    rw [objGet_objSet_self] at hget
    cases hget
    apply sortEvents_ne_nil
    intro hz
    have hlen := congrArg List.length hz
    simp at hlen
    rw [hlen] at he
    simp at he
  · rw [objGet_objSet_other _ _ hd] at hget
    exact hinv d l hget

theorem bucketsNonempty_del (date eventId : String)
    {s : TimelineState} (hinv : BucketsNonempty s) :
    BucketsNonempty (dlDeleteEvent date eventId s).2.1 := by
  unfold dlDeleteEvent
  split
  · exact hinv
  rename_i events hg
  split
  · exact hinv
  rename_i event hf
  intro d l hget
  dsimp at hget
  by_cases hfe : (events.filter (fun e => e.id != eventId)).isEmpty
  · rw [if_pos hfe] at hget
    by_cases hd : d = date
    · subst hd
      rw [objGet_objDel_self] at hget
      cases hget
    · rw [objGet_objDel_other _ hd] at hget
      exact hinv d l hget
  · rw [if_neg hfe] at hget
    by_cases hd : d = date
    · subst hd
      rw [objGet_objSet_self] at hget
      cases hget
      simpa [List.isEmpty_iff] using hfe
    · rw [objGet_objSet_other _ _ hd] at hget
      exact hinv d l hget

theorem bucketsNonempty_move (fromDate toDate eventId : String)
    {s : TimelineState} (hinv : BucketsNonempty s) :
    BucketsNonempty (dlMoveEvent fromDate toDate eventId s).2.1 := by
  unfold dlMoveEvent
  split
  · exact hinv
  rename_i fromEvents hg
  split
  · exact hinv
  rename_i event hf
  intro d l hget
  dsimp at hget
  by_cases hd : d = toDate
  · subst hd
    rw [objGet_objSet_self] at hget
    cases hget
    exact sortEvents_ne_nil (by simp)
  · rw [objGet_objSet_other _ _ hd] at hget
    by_cases hfe : (fromEvents.filter (fun e => e.id != eventId)).isEmpty
    · rw [if_pos hfe] at hget
      by_cases hd2 : d = fromDate
      · subst hd2
        rw [objGet_objDel_self] at hget
        cases hget
      · rw [objGet_objDel_other _ hd2] at hget
        exact hinv d l hget
    · rw [if_neg hfe] at hget
      by_cases hd2 : d = fromDate
      · subst hd2
        rw [objGet_objSet_self] at hget
        cases hget
        simpa [List.isEmpty_iff] using hfe
      · rw [objGet_objSet_other _ _ hd2] at hget
        exact hinv d l hget

theorem bucketsNonempty_restore (date : String) (event : Event)
    {s : TimelineState} (hinv : BucketsNonempty s) :
    BucketsNonempty (dlRestoreEvent date event s).2.1 := by
  intro d l hget
  dsimp [dlRestoreEvent] at hget
  by_cases hd : d = date
  · subst hd
    rw [objGet_objSet_self] at hget
    cases hget
    exact sortEvents_ne_nil (by simp)
  · rw [objGet_objSet_other _ _ hd] at hget
    exact hinv d l hget

/--
C2: in every reachable persisted state, an existing `eventsByDate` key
holds a non-empty bucket; deleting the last event of a bucket — via
`deleteEvent`, or via `moveEvent` to a different date — removes the
key entirely.
-/
theorem buckets_nonempty_and_last_delete_removes_key :
    (∀ s : TimelineState, Reach s → BucketsNonempty s) ∧
    (∀ (s : TimelineState) (date eventId : String) (ev : Event),
      objGet s.eventsByDate date = some [ev] → ev.id = eventId →
      objGet ((dlDeleteEvent date eventId s).2.1).eventsByDate date = none) ∧
    (∀ (s : TimelineState) (fromDate toDate eventId : String) (ev : Event),
      objGet s.eventsByDate fromDate = some [ev] → ev.id = eventId → fromDate ≠ toDate →
      objGet ((dlMoveEvent fromDate toDate eventId s).2.1).eventsByDate fromDate = none) := by
  refine ⟨?_, ?_, ?_⟩
  · intro s hs
    induction hs with
    | init => intro d l hget; cases hget
    | add date data id createdAt _ ih => exact bucketsNonempty_add date data id createdAt ih
    | update date eventId p _ ih => exact bucketsNonempty_update date eventId p ih
    | del date eventId _ ih => exact bucketsNonempty_del date eventId ih
    | move fromDate toDate eventId _ ih => exact bucketsNonempty_move fromDate toDate eventId ih
    | restore date event _ ih => exact bucketsNonempty_restore date event ih
  · intro s date eventId ev hget hid
    subst hid
    simp [dlDeleteEvent, hget, List.find?, objGet_objDel_self]
  · intro s fromDate toDate eventId ev hget hid hne
    subst hid
    simp [dlMoveEvent, hget, List.find?]
    rw [objGet_objSet_other _ _ hne]
    exact objGet_objDel_self _ _

/-- A one-event state used to witness C2. -/
def stOne : TimelineState :=
  (dlAddEvent "2026-01-10" { title := "A" } "id1" "2026-01-10T08:00:00.000Z"
    ({} : TimelineState)).2.1

/-- Witness for C2: the invariant holds on a concrete reachable state,
and deleting/moving the only event of its bucket removes the key. -/
theorem buckets_nonempty_and_last_delete_removes_key_witness :
    ([mkEvent "id1" { title := "A" } "2026-01-10T08:00:00.000Z"] ≠ ([] : List Event)) ∧
    objGet ((dlDeleteEvent "2026-01-10" "id1" stOne).2.1).eventsByDate "2026-01-10" = none ∧
    objGet ((dlMoveEvent "2026-01-10" "2026-01-11" "id1" stOne).2.1).eventsByDate
      "2026-01-10" = none := by
  refine ⟨?_, ?_, ?_⟩
  · exact buckets_nonempty_and_last_delete_removes_key.1 stOne
      (Reach.add _ _ _ _ Reach.init) "2026-01-10" _ (by decide)
  · exact buckets_nonempty_and_last_delete_removes_key.2.1 stOne "2026-01-10" "id1"
      (mkEvent "id1" { title := "A" } "2026-01-10T08:00:00.000Z") (by decide) rfl
  · exact buckets_nonempty_and_last_delete_removes_key.2.2 stOne "2026-01-10" "2026-01-11"
      "id1" (mkEvent "id1" { title := "A" } "2026-01-10T08:00:00.000Z") (by decide) rfl
      (by decide)

-- ### Store layer (`src/store/timelineStore.ts`)

/-- `DeletedEvent` from `src/types`: the undo-stack entry
`{ event, date, timestamp }`. -/
structure DeletedEvent where
  event : Event
  date : String
  timestamp : Int
  deriving DecidableEq, Repr

/-- The store state the claims concern: the persisted timeline document
(which the store mirrors field-for-field after hydration; every store
action applies the same transformation to its cache that the data layer
applies to storage) together with the in-memory deleted-events undo
stack. -/
structure StoreState where
  timeline : TimelineState := {}
  deletedEvents : List DeletedEvent := []
  deriving DecidableEq, Repr

/-- Store `addEvent`: delegate to the data layer and mirror. -/
def storeAddEvent (date : String) (data : EventData) (id createdAt : String)
    (s : StoreState) : StoreState :=
  { s with timeline := (dlAddEvent date data id createdAt s.timeline).2.1 }

/-- Store `updateEvent`: delegate; a `null` result leaves the store
untouched (`dlUpdateEvent` then returns the state unchanged). -/
def storeUpdateEvent (date eventId : String) (p : EventPatch) (s : StoreState) : StoreState :=
  { s with timeline := (dlUpdateEvent date eventId p s.timeline).2.1 }

/-- Store `moveEvent`: a same-date move is a guarded no-op; otherwise
delegate and mirror. -/
def storeMoveEvent (fromDate toDate eventId : String) (s : StoreState) : StoreState :=
  if fromDate = toDate then s
  else { s with timeline := (dlMoveEvent fromDate toDate eventId s.timeline).2.1 }

/-- Store `deleteEvent` (lines 358-374 of the store): `none` when the
data layer reports not-found (store unchanged); on success the event is
removed and the wrapper `{ event, date, timestamp }` is pushed onto the
stack, keeping only the previous `slice(0, 9)`. -/
def storeDeleteEvent (date eventId : String) (ts : Int) (s : StoreState) :
    Option (StoreState × DeletedEvent) :=
  match (dlDeleteEvent date eventId s.timeline).1 with
  | none => none
  | some (event, _) =>
    let w : DeletedEvent := { event := event, date := date, timestamp := ts }
    some ({ timeline := (dlDeleteEvent date eventId s.timeline).2.1,
            deletedEvents := w :: s.deletedEvents.take 9 }, w)

/-- Store `undoDelete`: pop the most recent wrapper and restore its
event into its original bucket (resorting); `none` on an empty stack. -/
def storeUndoDelete (s : StoreState) : Option (StoreState × DeletedEvent) :=
  match s.deletedEvents with
  | [] => none
  | lastDeleted :: remaining =>
    some ({ timeline := (dlRestoreEvent lastDeleted.date lastDeleted.event s.timeline).2.1,
            deletedEvents := remaining }, lastDeleted)

/-- Store `clearDeletedStack`. -/
def storeClearDeletedStack (s : StoreState) : StoreState :=
  { s with deletedEvents := [] }

/-- Store states reachable from the fresh (empty) store through store
actions. -/
inductive StoreReach : StoreState → Prop where
  | init : StoreReach {}
  | add (date : String) (data : EventData) (id createdAt : String) {s : StoreState} :
      StoreReach s → StoreReach (storeAddEvent date data id createdAt s)
  | update (date eventId : String) (p : EventPatch) {s : StoreState} :
      StoreReach s → StoreReach (storeUpdateEvent date eventId p s)
  | move (fromDate toDate eventId : String) {s : StoreState} :
      StoreReach s → StoreReach (storeMoveEvent fromDate toDate eventId s)
  | del (date eventId : String) (ts : Int) {s s' : StoreState} {w : DeletedEvent} :
      StoreReach s → storeDeleteEvent date eventId ts s = some (s', w) → StoreReach s'
  | undo {s s' : StoreState} {w : DeletedEvent} :
      StoreReach s → storeUndoDelete s = some (s', w) → StoreReach s'
  | clear {s : StoreState} : StoreReach s → StoreReach (storeClearDeletedStack s)

theorem storeDeleteEvent_deleted {date eventId : String} {ts : Int}
    {s s' : StoreState} {w : DeletedEvent}
    (h : storeDeleteEvent date eventId ts s = some (s', w)) :
    s'.deletedEvents = w :: s.deletedEvents.take 9 := by
  unfold storeDeleteEvent at h
  split at h
  · cases h
  · injection h with h
    cases h
    rfl

/-- A sequence of `deleteEvent` calls, all of which must succeed;
returns the final state and the pushed wrappers in call order. -/
def runDeletes : List (String × String × Int) → StoreState →
    Option (StoreState × List DeletedEvent)
  | [], s => some (s, [])
  | (d, i, t) :: rest, s =>
    match storeDeleteEvent d i t s with
    | none => none
    | some (s1, w) =>
      match runDeletes rest s1 with
      | none => none
      | some (s2, ws) => some (s2, w :: ws)

theorem take_append_take {α : Type} (xs ys : List α) (n : Nat) :
    (xs ++ ys.take n).take n = (xs ++ ys).take n := by
  rw [List.take_append_eq_append_take, List.take_append_eq_append_take, List.take_take]
  congr 1
  rw [Nat.min_eq_left (Nat.sub_le _ _)]

theorem runDeletes_stack : ∀ (steps : List (String × String × Int)) (s s' : StoreState)
    (ws : List DeletedEvent), runDeletes steps s = some (s', ws) →
    ws.length = steps.length ∧
      (ws ≠ [] → s'.deletedEvents = (ws.reverse ++ s.deletedEvents).take 10)
  | [], s, s', ws => by
    intro h
    unfold runDeletes at h
    injection h with h
    cases h
    exact ⟨rfl, fun hne => absurd rfl hne⟩
  | (d, i, t) :: rest, s, s', ws => by
    intro h
    unfold runDeletes at h
    split at h
    · cases h
    · rename_i s1 w hdel
      split at h
      · cases h
      · rename_i s2 ws2 hrun
        injection h with h
        rw [Prod.mk.injEq] at h
        obtain ⟨h1, h2⟩ := h
        obtain ⟨hlen, hstack⟩ := runDeletes_stack rest s1 s2 ws2 hrun
        have hpush : s1.deletedEvents = (w :: s.deletedEvents).take 10 := by
          rw [storeDeleteEvent_deleted hdel, List.take_succ_cons]
        refine ⟨by rw [← h2]; simp [hlen], fun _ => ?_⟩
        rw [← h1, ← h2]
        cases hW : ws2 with
        | nil =>
          rw [hW] at hrun hlen
          have hrest : rest = [] := List.eq_nil_of_length_eq_zero hlen.symm
          subst hrest
          unfold runDeletes at hrun
          injection hrun with hrun
          rw [Prod.mk.injEq] at hrun
          rw [← hrun.1]
          simpa using hpush
        | cons w2 ws2t =>
          have hne2 : ws2 ≠ [] := by rw [hW]; exact List.cons_ne_nil _ _
          rw [← hW, hstack hne2, hpush, take_append_take]
          congr 1
          rw [List.reverse_cons, List.append_assoc]
          rfl

/--
C3: the deleted-events undo stack of every reachable store state holds
at most 10 entries, and after 11 sequential successful `deleteEvent`
calls the stack holds exactly the wrappers of the 10 most recent
deletions (most recent first, i.e. recoverable in order by
`undoDelete`), the first (oldest) deletion being dropped.
-/
theorem undo_stack_bounded :
    (∀ s : StoreState, StoreReach s → s.deletedEvents.length ≤ 10) ∧
    (∀ (steps : List (String × String × Int)) (s s' : StoreState)
      (ws : List DeletedEvent), runDeletes steps s = some (s', ws) →
      steps.length = 11 →
      s'.deletedEvents = (ws.drop 1).reverse ∧
        (∀ w0, ws.head? = some w0 → w0 ∉ ws.drop 1 → w0 ∉ s'.deletedEvents)) := by
  constructor
  · intro s hs
    induction hs with
    | init => simp
    | add date data id createdAt _ ih => exact ih
    | update date eventId p _ ih => exact ih
    | move fromDate toDate eventId _ ih =>
      unfold storeMoveEvent
      split
      · exact ih
      · exact ih
    | del date eventId ts _ hdel ih =>
      rw [storeDeleteEvent_deleted hdel]
      simp only [List.length_cons, List.length_take]
      omega
    | undo _ hundo ih =>
      unfold storeUndoDelete at hundo
      split at hundo
      · cases hundo
      · rename_i lastDeleted remaining hstack
        injection hundo with hundo
        cases hundo
        rw [hstack] at ih
        simpa using Nat.le_of_succ_le_succ (Nat.le_succ_of_le ih)
    | clear _ _ => simp [storeClearDeletedStack]
  · intro steps s s' ws hrun hlen11
    obtain ⟨hlen, hstack⟩ := runDeletes_stack steps s s' ws hrun
    have hws : ws.length = 11 := by rw [hlen, hlen11]
    have hne : ws ≠ [] := by
      intro hz
      rw [hz] at hws
      cases hws
    have hfinal : s'.deletedEvents = (ws.drop 1).reverse := by
      rw [hstack hne, List.take_append_of_le_length (by simp [hws]), List.take_reverse]
      congr 1
      rw [hws]
    refine ⟨hfinal, fun w0 hw0 hnot hmem => hnot ?_⟩
    rw [hfinal, List.mem_reverse] at hmem
    exact hmem

/-- Eleven one-event date buckets for the C3 witness. -/
def delDates : List String :=
  ["d01", "d02", "d03", "d04", "d05", "d06", "d07", "d08", "d09", "d10", "d11"]

/-- Store state holding the eleven events. -/
def stEleven : StoreState :=
  delDates.foldl (fun s d => storeAddEvent d { title := "E" } ("id" ++ d) "T" s) {}

/-- The eleven delete calls. -/
def delSteps : List (String × String × Int) :=
  delDates.map (fun d => (d, "id" ++ d, 0))

/-- Witness for C3: the bound holds on the fresh store, and a concrete
run of 11 successful deletions leaves exactly the last 10 wrappers. -/
theorem undo_stack_bounded_witness :
    (({} : StoreState).deletedEvents.length ≤ 10) ∧
    ∃ p : StoreState × List DeletedEvent,
      runDeletes delSteps stEleven = some p ∧
        p.1.deletedEvents = (p.2.drop 1).reverse := by
  constructor
  · exact undo_stack_bounded.1 {} StoreReach.init
  · match hr : runDeletes delSteps stEleven with
    | none => exact absurd hr (by decide)
    | some p =>
      exact ⟨p, rfl, (undo_stack_bounded.2 delSteps stEleven p.1 p.2
        (by rw [hr]) (by decide)).1⟩

-- ### C4: add / delete / undo round trip

/--
C4: adding an event (with a fresh generated id), deleting it, then
undoing the deletion restores an event with identical fields (id
unchanged) into the bucket for the same date, and the resulting bucket
satisfies the sort order (timed before untimed, lexical time order,
`createdAt` tie-break).  The freshness hypothesis models the id
generator: the generated id does not collide with an id already in the
bucket.
-/
theorem add_delete_undo_restores (s : StoreState) (date : String) (data : EventData)
    (id createdAt : String) (ts : Int)
    (hfresh : ∀ e ∈ (objGet s.timeline.eventsByDate date).getD [], e.id ≠ id) :
    ∃ s2 w,
      storeDeleteEvent date id ts (storeAddEvent date data id createdAt s) = some (s2, w) ∧
      w.event = mkEvent id data createdAt ∧
      ∃ s3, storeUndoDelete s2 = some (s3, w) ∧
        ∃ l, objGet s3.timeline.eventsByDate date = some l ∧
          mkEvent id data createdAt ∈ l ∧ l.Pairwise eventOrderSpec ∧
          s3.deletedEvents = s.deletedEvents.take 9 := by
  set ev : Event := mkEvent id data createdAt with hev
  set old : List Event := (objGet s.timeline.eventsByDate date).getD [] with hold
  set bucket1 : List Event := sortEvents (old ++ [ev]) with hbucket1
  have hGet1 : objGet (storeAddEvent date data id createdAt s).timeline.eventsByDate date
      = some bucket1 := objGet_objSet_self _ _ _
  have hevid : ev.id = id := rfl
  have hmem_ev : ev ∈ bucket1 := by
    rw [hbucket1, sortEvents, List.mem_insertionSort]
    simp
  have hfind : List.find? (fun e => e.id == id) bucket1 = some ev := by
    cases hf : List.find? (fun e => e.id == id) bucket1 with
    | none =>
      exfalso
      rw [List.find?_eq_none] at hf
      exact hf ev hmem_ev (by simp [hevid])
    | some x =>
      have hx : x.id = id := by simpa using List.find?_some hf
      have hxmem : x ∈ bucket1 := List.mem_of_find?_eq_some hf
      have hxev : x = ev := by
        rw [hbucket1, sortEvents, List.mem_insertionSort] at hxmem
        rcases List.mem_append.mp hxmem with hmo | hml
        · exact absurd hx (hfresh x hmo)
        · simpa using hml
      rw [hxev]
  have hdl : dlDeleteEvent date id (storeAddEvent date data id createdAt s).timeline =
      (some (ev, date),
        { (storeAddEvent date data id createdAt s).timeline with
            eventsByDate :=
              if (bucket1.filter (fun e => e.id != id)).isEmpty then
                objDel (storeAddEvent date data id createdAt s).timeline.eventsByDate date
              else
                objSet (storeAddEvent date data id createdAt s).timeline.eventsByDate date
                  (bucket1.filter (fun e => e.id != id)) },
        true) := by
    unfold dlDeleteEvent
    rw [hGet1]
    simp only [hfind]
  have hsd : storeDeleteEvent date id ts (storeAddEvent date data id createdAt s) =
      some ({ timeline := (dlDeleteEvent date id
                (storeAddEvent date data id createdAt s).timeline).2.1,
              deletedEvents := (⟨ev, date, ts⟩ : DeletedEvent) :: s.deletedEvents.take 9 },
            ⟨ev, date, ts⟩) := by
    unfold storeDeleteEvent
    rw [hdl]
    rfl
  refine ⟨_, _, hsd, rfl, ?_⟩
  refine ⟨_, rfl, ?_⟩
  refine ⟨_, objGet_objSet_self _ _ _, ?_, ?_, rfl⟩
  · rw [sortEvents, List.mem_insertionSort]
    simp
  · exact List.Pairwise.imp eventLE_imp_spec (List.sorted_insertionSort eventLE _)

/-- A store state with one timed event, for the C4 witness. -/
def stOneStore : StoreState :=
  storeAddEvent "2026-01-10" { title := "A", time := some "10:00" } "idA"
    "2026-01-10T08:00:00.000Z" {}

/-- Witness for C4 on a concrete store holding one earlier event. -/
theorem add_delete_undo_restores_witness :
    ∃ s2 w,
      storeDeleteEvent "2026-01-10" "idB" 5
          (storeAddEvent "2026-01-10" { title := "B", time := some "09:00" } "idB"
            "2026-01-10T09:00:00.000Z" stOneStore) = some (s2, w) ∧
      w.event = mkEvent "idB" { title := "B", time := some "09:00" }
        "2026-01-10T09:00:00.000Z" ∧
      ∃ s3, storeUndoDelete s2 = some (s3, w) ∧
        ∃ l, objGet s3.timeline.eventsByDate "2026-01-10" = some l ∧
          mkEvent "idB" { title := "B", time := some "09:00" }
            "2026-01-10T09:00:00.000Z" ∈ l ∧ l.Pairwise eventOrderSpec ∧
          s3.deletedEvents = stOneStore.deletedEvents.take 9 :=
  add_delete_undo_restores stOneStore "2026-01-10" { title := "B", time := some "09:00" }
    "idB" "2026-01-10T09:00:00.000Z" 5 (by decide)

-- ### C5: recurring-event resolution for a date

/-- `getRecurringEventsForDate` from `src/store/timelineStore.ts`
(lines 476-485): keep the recurring events whose enabled-weekday set
contains the weekday of `date` and which are not past their (truthy)
`repeatUntil` date; `isAfter` of the two `startOfDay` values is the
epoch-day comparison. -/
def getRecurringEventsForDate (recurringEvents : List RecurringEvent) (date : String) :
    List RecurringEvent :=
  let dayOfWeek := getDayOfDate date
  recurringEvents.filter (fun event =>
    if !(decide (dayOfWeek ∈ event.enabledDays)) then false
    else if !(strFalsy event.repeatUntil) &&
        decide (toDays date > toDays (event.repeatUntil.getD "")) then false
    else true)

/--
C5: resolving the recurring events for a date `d` returns exactly those
recurring events whose enabled-weekday set contains `weekday(d)` and
which either have no `repeatUntil` date or have `repeatUntil` not
earlier than `d` (so `repeatUntil < d` is excluded and `repeatUntil = d`
is included).  The hypothesis rules out the degenerate empty-string
`repeatUntil`, which the source's truthiness test would treat as
absent.
-/
theorem getRecurringEventsForDate_spec (recs : List RecurringEvent) (d : String)
    (hru : ∀ r ∈ recs, r.repeatUntil ≠ some "") (e : RecurringEvent) :
    e ∈ getRecurringEventsForDate recs d ↔
      e ∈ recs ∧ getDayOfDate d ∈ e.enabledDays ∧
        (e.repeatUntil = none ∨
          ∃ ru, e.repeatUntil = some ru ∧ ¬toDays ru < toDays d) := by
  unfold getRecurringEventsForDate
  simp only [List.mem_filter]
  constructor
  · rintro ⟨hmem, hpred⟩
    have hday : getDayOfDate d ∈ e.enabledDays := by
      by_contra hc
      simp [hc] at hpred
    refine ⟨hmem, hday, ?_⟩
    cases hrep : e.repeatUntil with
    | none => exact Or.inl rfl
    | some ru =>
      refine Or.inr ⟨ru, rfl, fun hlt => ?_⟩
      have hsf : strFalsy (some ru) = false := by
        cases hru0 : ru.isEmpty
        · simp [strFalsy, hru0]
        · exact absurd (hrep ▸ congrArg some ((String.isEmpty_iff ru).mp hru0))
            (hru e hmem)
      simp [hday, hrep, hsf, hlt] at hpred
  · rintro ⟨hmem, hday, hrep⟩
    refine ⟨hmem, ?_⟩
    rcases hrep with hnone | ⟨ru, hsome, hnl⟩
    · simp [hday, hnone, strFalsy]
    · have hsf : strFalsy (some ru) = false := by
        cases hru0 : ru.isEmpty
        · simp [strFalsy, hru0]
        · exact absurd (hsome ▸ congrArg some ((String.isEmpty_iff ru).mp hru0))
            (hru e hmem)
      simp [hday, hsome, hsf, hnl]

/-- A Monday/Wednesday/Friday recurring event for the C5 witness. -/
def recMWF : RecurringEvent :=
  { id := "r1", title := "Gym", enabledDays := [1, 3, 5],
    createdAt := "2026-01-01T00:00:00.000Z" }

/-- Witness for C5: 2026-03-11 is a Wednesday, so the event
materializes there. -/
theorem getRecurringEventsForDate_spec_witness :
    recMWF ∈ getRecurringEventsForDate [recMWF] "2026-03-11" :=
  (getRecurringEventsForDate_spec [recMWF] "2026-03-11" (by decide) recMWF).mpr
    ⟨by decide, by decide, Or.inl rfl⟩

-- ### C10: the comparator conflates empty-string and absent times

/--
C10: `compareTimeStrings` tests truthiness, so an empty-string time
behaves exactly like an absent one: the comparator gives identical
results for `some ""` and `none` in either argument; an event whose
time is `""` sorts after every event with a truthy time, and against
other untimed events falls back to the `createdAt` comparison.
-/
theorem empty_time_behaves_like_absent :
    (∀ t : Option String,
      compareTimeStrings (some "") t = compareTimeStrings none t ∧
      compareTimeStrings t (some "") = compareTimeStrings t none) ∧
    (∀ a b : Event, a.time = some "" → strFalsy b.time = false → 0 < compareEvents a b) ∧
    (∀ a b : Event, a.time = some "" → strFalsy b.time = true →
      compareEvents a b = localeCompare a.createdAt b.createdAt) := by
  refine ⟨?_, ?_, ?_⟩
  · intro t
    constructor <;> cases ht : strFalsy t <;>
      simp [compareTimeStrings, ht, show strFalsy (some "") = true from rfl,
        show strFalsy none = true from rfl]
  · intro a b ha hb
    have hsa : strFalsy a.time = true := by rw [ha]; rfl
    unfold compareEvents compareTimeStrings
    simp [hsa, hb]
  · intro a b ha hb
    have hsa : strFalsy a.time = true := by rw [ha]; rfl
    unfold compareEvents compareTimeStrings
    simp [hsa, hb]

/-- An event with an empty-string time, for the C10 witness. -/
def evEmptyTime : Event :=
  { id := "e", title := "E", time := some "", createdAt := "2026-01-01T01:00:00.000Z" }

/-- An event with a real time, for the C10 witness. -/
def evTimed : Event :=
  { id := "t", title := "T", time := some "10:00", createdAt := "2026-01-01T02:00:00.000Z" }

/-- An event without a time, for the C10 witness. -/
def evUntimed : Event :=
  { id := "u", title := "U", time := none, createdAt := "2026-01-01T03:00:00.000Z" }

/-- Witness for C10 at concrete events. -/
theorem empty_time_behaves_like_absent_witness :
    (compareTimeStrings (some "") (some "10:00") = compareTimeStrings none (some "10:00") ∧
      compareTimeStrings (some "10:00") (some "") = compareTimeStrings (some "10:00") none) ∧
    0 < compareEvents evEmptyTime evTimed ∧
    compareEvents evEmptyTime evUntimed =
      localeCompare evEmptyTime.createdAt evUntimed.createdAt :=
  ⟨empty_time_behaves_like_absent.1 (some "10:00"),
    empty_time_behaves_like_absent.2.1 evEmptyTime evTimed rfl (by decide),
    empty_time_behaves_like_absent.2.2 evEmptyTime evUntimed rfl rfl⟩

-- ### C9: viewport visibility filter (`TimelineView.tsx`, `visibleDates`)

/-- The per-event search match `TimelineView` and `searchEvents` use:
case-insensitive substring match on title or description. -/
def eventMatchesQuery (lowerQuery : String) (e : Event) : Bool :=
  strIncludes (strToLower e.title) lowerQuery ||
    (match e.description with
     | some dsc => strIncludes (strToLower dsc) lowerQuery
     | none => false)

/-- The `visibleDates` filter of `TimelineView.tsx` (lines 66-160),
parameterized by today's epoch day.  The source also computes the
earliest loaded date for debug logging only; the filter itself is the
predicate below.  `isDateToday`, `isDatePast` and `getDaysFromToday`
are the epoch-day comparisons `toDays date = today`, `< today` and the
difference. -/
def visibleDates (dates : List String) (eventsByDate : EventsByDate)
    (recurringEvents : List RecurringEvent) (searchQuery : String)
    (hideEmptyDays : Bool) (today : Int) : List String :=
  dates.filter (fun date =>
    let regularEventsCount := ((objGet eventsByDate date).getD []).length
    let dayOfWeek := getDayOfDate date
    let hasRecurringEvents :=
      recurringEvents.any (fun event => decide (dayOfWeek ∈ event.enabledDays))
    let hasEvents := decide (regularEventsCount > 0) || hasRecurringEvents
    if !searchQuery.isEmpty then
      ((objGet eventsByDate date).getD []).any
        (eventMatchesQuery (strToLower searchQuery))
    else if toDays date == today then true
    else if toDays date < today then
      if toDays date - today < -90 then false
      else if toDays date - today ≥ -10 then
        (if hideEmptyDays then hasEvents else true)
      else if hideEmptyDays then hasEvents
      else true
    else if hideEmptyDays then hasEvents
    else true)

/--
Counterexample to C9: with an active search query, a date more than 90
days before today whose bucket holds a matching event is shown — the
90-day cutoff is applied only after the search branch has already
returned.  Today is 2026-10-11; 2020-01-01 is far beyond the cutoff,
yet it is visible for the query `"x"`.
-/
theorem visibleDates_shows_old_matching_date :
    toDays "2020-01-01" - toDays "2026-10-11" < -90 ∧
    visibleDates ["2020-01-01"]
        [("2020-01-01", [{ id := "e1", title := "box", createdAt := "T" }])] [] "x" false
        (toDays "2026-10-11")
      = ["2020-01-01"] := by decide

/--
C9 (amended): when no search query is active, the visibility filter
excludes every date lying more than 90 days before today, regardless of
events or the hide-empty-days setting; when a query is active,
visibility is determined solely by whether the date's bucket holds a
title/description match (the 90-day cutoff does not apply).
-/
theorem visibleDates_cutoff_spec (dates : List String) (ebd : EventsByDate)
    (recs : List RecurringEvent) (hide : Bool) (today : Int) (q d : String) :
    (toDays d - today < -90 → d ∉ visibleDates dates ebd recs "" hide today) ∧
    (q ≠ "" → (d ∈ visibleDates dates ebd recs q hide today ↔
      d ∈ dates ∧
        ((objGet ebd d).getD []).any (eventMatchesQuery (strToLower q)) = true)) := by
  constructor
  · intro hfar hmem
    rw [visibleDates, List.mem_filter] at hmem
    obtain ⟨_, hpred⟩ := hmem
    have h1 : (toDays d == today) = false := by
      simp only [beq_eq_false_iff_ne, ne_eq]
      omega
    have h2 : toDays d < today := by omega
    rw [if_neg (by decide), if_neg (by simp [h1]), if_pos h2, if_pos hfar] at hpred
    cases hpred
  · intro hq
    have hq' : q.isEmpty = false := by
      cases h : q.isEmpty
      · rfl
      · exact absurd ((String.isEmpty_iff q).mp h) hq
    rw [visibleDates, List.mem_filter]
    simp only [hq', Bool.not_false, if_pos rfl]
    exact Iff.rfl

/-- Witness for C9 (amended) at a concrete far-past date and a concrete
query. -/
theorem visibleDates_cutoff_spec_witness :
    ("2020-01-01" ∉ visibleDates ["2020-01-01"] [] [] "" false (toDays "2026-10-11")) ∧
    ("2020-01-01" ∈ visibleDates ["2020-01-01"]
        [("2020-01-01", [{ id := "e1", title := "box", createdAt := "T" }])] [] "x" false
        (toDays "2026-10-11") ↔
      "2020-01-01" ∈ ["2020-01-01"] ∧
        ((objGet [("2020-01-01", [{ id := "e1", title := "box", createdAt := "T" }])]
            "2020-01-01").getD []).any
          (eventMatchesQuery (strToLower "x")) = true) :=
  ⟨(visibleDates_cutoff_spec ["2020-01-01"] [] [] false (toDays "2026-10-11")
      "" "2020-01-01").1 (by decide),
    (visibleDates_cutoff_spec ["2020-01-01"]
      [("2020-01-01", [{ id := "e1", title := "box", createdAt := "T" }])] [] false
      (toDays "2026-10-11") "x" "2020-01-01").2 (by decide)⟩

-- ### C8: searchEvents and duplicate results

/-- `query.trim()`: strip leading and trailing whitespace. -/
def strTrim (s : String) : String :=
  ⟨((s.data.dropWhile Char.isWhitespace).reverse.dropWhile Char.isWhitespace).reverse⟩

/-- The date-descending order of search results
(`(a, b) => b.date.localeCompare(a.date)` ≤ 0). -/
def searchLE (x y : Event × String) : Prop := localeCompare y.2 x.2 ≤ 0

instance : DecidableRel searchLE := fun x y => Int.decLe (localeCompare y.2 x.2) 0

/-- `searchEvents` from `src/store/timelineStore.ts` (lines 410-436):
empty trimmed query returns nothing; otherwise each bucket contributes
all its events when its date key contains the (date-shaped) query or
the lowercased query as a substring — skipping the field test for that
bucket — and otherwise its title/description matches; results are
sorted by date descending. -/
def searchEvents (eventsByDate : EventsByDate) (query : String) :
    List (Event × String) :=
  let trimmed := strTrim query
  if trimmed.isEmpty then []
  else
    let lower := strToLower trimmed
    let isDateSearch := isDateQueryPattern trimmed
    let results := eventsByDate.flatMap (fun p =>
      if isDateSearch && strIncludes p.1 trimmed then p.2.map (fun e => (e, p.1))
      else if strIncludes p.1 lower then p.2.map (fun e => (e, p.1))
      else (p.2.filter (eventMatchesQuery lower)).map (fun e => (e, p.1)))
    results.insertionSort searchLE

/-- The event of the C8 counterexample: its title contains its bucket's
date key, so the bucket matches the query both by date and by field. -/
def evReview : Event :=
  { id := "e1", title := "2026-03-10 review", createdAt := "2026-03-01T00:00:00.000Z" }

/--
Counterexample to C8: for a bucket whose date key matches the query as
a substring while an event in the same bucket also matches by title,
the result still contains the pair exactly once, not more than once —
the date-match branch `continue`s past the field test, so the claimed
duplicate never arises.
-/
theorem searchEvents_no_duplicate_on_double_match :
    strIncludes "2026-03-10" (strTrim "2026-03-10") = true ∧
    eventMatchesQuery (strToLower (strTrim "2026-03-10")) evReview = true ∧
    (searchEvents [("2026-03-10", [evReview])] "2026-03-10").count
      (evReview, "2026-03-10") = 1 := by decide

/--
C8 (amended): `searchEvents` never returns the same `(event, date)`
pair twice as long as the bucket keys are distinct and each bucket
holds distinct events: a bucket matched by date contributes each of its
events exactly once and skips field matching, and every bucket
contributes through exactly one branch.
-/
theorem searchEvents_nodup (ebd : EventsByDate) (q : String)
    (hkeys : (ebd.map Prod.fst).Nodup) (hbuckets : ∀ p ∈ ebd, p.2.Nodup) :
    (searchEvents ebd q).Nodup := by
  unfold searchEvents
  cases h : (strTrim q).isEmpty with
  | true => simp [h]
  | false =>
    rw [if_neg (by simp [h])]
    refine ((List.perm_insertionSort searchLE _).nodup_iff).mpr ?_
    rw [List.nodup_flatMap]
    constructor
    · intro p hp
      have hinj : Function.Injective (fun e : Event => (e, p.1)) := by
        intro a b hab
        exact congrArg Prod.fst hab
      split_ifs with h1 h2
      · exact (hbuckets p hp).map hinj
      · exact (hbuckets p hp).map hinj
      · exact ((hbuckets p hp).filter _).map hinj
    · have hpw : ebd.Pairwise (fun p q => p.1 ≠ q.1) := by
        rw [List.Nodup, List.pairwise_map] at hkeys
        exact hkeys
      refine hpw.imp ?_
      intro p q hne x hxp hxq
      dsimp only at hxp hxq
      have hx1 : x.2 = p.1 := by
        split_ifs at hxp <;>
          · obtain ⟨e, _, rfl⟩ := List.mem_map.mp hxp
            rfl
      have hx2 : x.2 = q.1 := by
        split_ifs at hxq <;>
          · obtain ⟨e, _, rfl⟩ := List.mem_map.mp hxq
            rfl
      exact hne (hx1 ▸ hx2)

/-- Witness for C8 (amended) on the concrete double-match bucket. -/
theorem searchEvents_nodup_witness :
    (searchEvents [("2026-03-10", [evReview])] "2026-03-10").Nodup :=
  searchEvents_nodup [("2026-03-10", [evReview])] "2026-03-10" (by decide) (by decide)

-- ### C7: time-string validation

/-- `isValidTimeString` from `src/utils/date.ts`: the regular
expression `([01]?[0-9]|2[0-3]):([0-5][0-9])` anchored at both ends.
A match is a single digit hour, or `[01][0-9]`, or `2[0-3]`, then a
colon and `[0-5][0-9]`. -/
def isValidTimeString (time : String) : Bool :=
  match time.data with
  | [h1, ':', m1, m2] =>
      h1.isDigit && (decide ('0' ≤ m1) && decide (m1 ≤ '5')) && m2.isDigit
  | [h1, h2, ':', m1, m2] =>
      ((h1 == '0' || h1 == '1') && h2.isDigit ||
        (h1 == '2' && (decide ('0' ≤ h2) && decide (h2 ≤ '3')))) &&
      (decide ('0' ≤ m1) && decide (m1 ≤ '5')) && m2.isDigit
  | _ => false

/-- Decimal value of a digit character. -/
def charDigitVal (c : Char) : Nat := c.toNat - 48

/-- The format C7 describes, written from the spec's words: the exact
form `HH:mm` with a two-digit zero-padded hour whose value is 00-23
and a two-digit minute whose value is 00-59. -/
def specTwoDigitTime (s : String) : Bool :=
  match s.data with
  | [h1, h2, ':', m1, m2] =>
      h1.isDigit && h2.isDigit && m1.isDigit && m2.isDigit &&
      decide (10 * charDigitVal h1 + charDigitVal h2 ≤ 23) &&
      decide (10 * charDigitVal m1 + charDigitVal m2 ≤ 59)
  | _ => false

/-- The extra shape the regex also accepts: `H:mm` with a single-digit
hour (any digit 0-9) and a two-digit minute 00-59. -/
def specSingleDigitHourTime (s : String) : Bool :=
  match s.data with
  | [h1, ':', m1, m2] =>
      h1.isDigit && m1.isDigit && m2.isDigit &&
      decide (10 * charDigitVal m1 + charDigitVal m2 ≤ 59)
  | _ => false

/--
Counterexample to C7: the regex hour group `[01]?[0-9]` makes the
leading zero optional, so `"9:30"` is accepted although it is not of
the claimed exact two-digit `HH:mm` form.
-/
theorem isValidTimeString_accepts_single_digit_hour :
    isValidTimeString "9:30" = true ∧ specTwoDigitTime "9:30" = false := by decide

theorem char_isDigit_iff (c : Char) :
    c.isDigit = true ↔ (48 ≤ c.toNat ∧ c.toNat ≤ 57) := by
  simp only [Char.isDigit, Bool.and_eq_true, decide_eq_true_eq, ge_iff_le]
  exact Iff.rfl

theorem char_le_iff (a c : Char) : (a ≤ c) ↔ a.toNat ≤ c.toNat := by
  rw [Char.le_def]
  exact Iff.rfl

theorem char_eq_iff (c a : Char) : (c = a) ↔ c.toNat = a.toNat :=
  ⟨fun h => by rw [h], fun h => Char.ext (UInt32.toNat.inj h)⟩

theorem timeRegex4_eq (h1 m1 m2 : Char) :
    (h1.isDigit && (decide ('0' ≤ m1) && decide (m1 ≤ '5')) && m2.isDigit) =
    (h1.isDigit && m1.isDigit && m2.isDigit &&
      decide (10 * charDigitVal m1 + charDigitVal m2 ≤ 59)) := by
  rw [Bool.eq_iff_iff]
  simp only [Bool.and_eq_true, decide_eq_true_eq, char_isDigit_iff, char_le_iff,
    charDigitVal]
  simp only [show ('0'.toNat) = 48 from rfl, show ('5'.toNat) = 53 from rfl]
  omega

theorem timeRegex5_eq (h1 h2 m1 m2 : Char) :
    (((h1 == '0' || h1 == '1') && h2.isDigit ||
        (h1 == '2' && (decide ('0' ≤ h2) && decide (h2 ≤ '3')))) &&
      (decide ('0' ≤ m1) && decide (m1 ≤ '5')) && m2.isDigit) =
    (h1.isDigit && h2.isDigit && m1.isDigit && m2.isDigit &&
      decide (10 * charDigitVal h1 + charDigitVal h2 ≤ 23) &&
      decide (10 * charDigitVal m1 + charDigitVal m2 ≤ 59)) := by
  rw [Bool.eq_iff_iff]
  simp only [Bool.or_eq_true, Bool.and_eq_true, beq_iff_eq, decide_eq_true_eq,
    char_isDigit_iff, char_le_iff, char_eq_iff, charDigitVal]
  simp only [show ('0'.toNat) = 48 from rfl, show ('1'.toNat) = 49 from rfl,
    show ('2'.toNat) = 50 from rfl, show ('3'.toNat) = 51 from rfl,
    show ('5'.toNat) = 53 from rfl]
  omega

/--
C7 (amended): `isValidTimeString` returns `true` iff the string has the
exact form `HH:mm` with a two-digit zero-padded hour 00-23 and a
two-digit minute 00-59, **or** the form `H:mm` with a single-digit hour
0-9 and a two-digit minute 00-59.
-/
theorem isValidTimeString_spec (s : String) :
    isValidTimeString s = (specTwoDigitTime s || specSingleDigitHourTime s) := by
  cases s with
  | mk data =>
    unfold isValidTimeString specTwoDigitTime specSingleDigitHourTime
    dsimp only
    split
    · rename_i h1 m1 m2
      split
      · rename_i heq
        simp at heq
      · rw [Bool.false_or]
        split
        · rename_i heq
          simp at heq
          obtain ⟨rfl, rfl, rfl⟩ := heq
          exact timeRegex4_eq _ _ _
        · rename_i hne
          exact (hne h1 m1 m2 rfl).elim
    · rename_i h1 h2 m1 m2
      split
      · rename_i heq
        simp at heq
        obtain ⟨rfl, rfl, rfl, rfl⟩ := heq
        split
        · rename_i heq2
          simp at heq2
        · rw [Bool.or_false]
          exact timeRegex5_eq _ _ _ _
      · rename_i hne
        exact (hne h1 h2 m1 m2 rfl).elim
    · rename_i hne4 hne5
      split
      · exact (hne5 _ _ _ _ rfl).elim
      · rw [Bool.false_or]
        split
        · exact (hne4 _ _ _ rfl).elim
        · rfl

end Interval
